import Mathlib

/-!
Verification of the data-preparation utilities in `fnn/utils.py`.

The module under study builds delay-embedding (Hankel) matrices from time
series, partitions a series into standardized train/test Hankel matrices,
z-scores series per channel, and loads a labeled dataset file.

Embedding conventions used throughout this development:
* numpy arrays are nested lists (`List ℚ` for 1-D, `List (List ℚ)` for a
  T×D array in row-major order, and so on); exact rational arithmetic
  stands in for floating point;
* Python slices (including negative indices and clamping) are modelled by
  `pySlice`; Python `int()` (truncation toward zero) by `pyInt`; the
  truthiness test `if not p` on an optional integer by `pyTruthy`;
* `standardize_ts` divides by a standard deviation, a real square root, so
  it alone is modelled over `ℝ` with `Real.sqrt`; division is the total
  field division of `ℚ`/`ℝ`.
-/

/-- Python slice `l[start:stop]` (with `stop = none` for `l[start:]`):
negative indices count from the end and both bounds clamp to `[0, len l]`. -/
def pySlice {α : Type} (l : List α) (start : ℤ) (stop : Option ℤ) : List α :=
  let n : ℤ := l.length
  let lo : ℤ := if start < 0 then max (n + start) 0 else min start n
  let hi : ℤ := match stop with
    | none => n
    | some t => if t < 0 then max (n + t) 0 else min t n
  (l.drop lo.toNat).take (hi - lo).toNat

/-- Python `int()` on an exact rational: truncation toward zero. -/
def pyInt (x : ℚ) : ℤ := if 0 ≤ x then ⌊x⌋ else ⌈x⌉

/-- Python truthiness of the optional integer argument `p`: `if not p` is
taken when `p` is `None` or `0`, so only a present nonzero value survives. -/
def pyTruthy (p0 : Option ℕ) (dflt : ℕ) : ℕ :=
  match p0 with
  | some (k + 1) => k + 1
  | _ => dflt

/-- `scipy.linalg.hankel(c, r)`: the `len c × len r` matrix with first
column `c` and last row `r` (`r[0]` shadowed by `c[-1]`), constant on
anti-diagonals: entry `(i, j)` is `c[i+j]` when `i+j < len c`, and
`r[i+j-len c+1]` otherwise. -/
def scipyHankel (c r : List ℚ) : List (List ℚ) :=
  (List.range c.length).map fun i =>
    (List.range r.length).map fun j =>
      if i + j < c.length then c.getD (i + j) 0 else r.getD (i + j - c.length + 1) 0

/-- `data.T` for a row-major T×D array: the list of its D columns
(channels), each of length T. -/
def npT (data : List (List ℚ)) : List (List ℚ) :=
  (List.range (data.headD []).length).map fun d => data.map fun r => r.getD d 0

/-- `np.dstack` of a list of equally-shaped a×b matrices: the a×b×D array
with `out[i][j][d] = mats[d][i][j]`. -/
def npDstack (mats : List (List (List ℚ))) : List (List (List ℚ)) :=
  match mats with
  | [] => []
  | m :: _ =>
    (List.range m.length).map fun i =>
      (List.range (m.headD []).length).map fun j =>
        mats.map fun md => (md.getD i []).getD j 0

/-- `np.transpose(x, (1, 0, 2))`: swap the first two axes of a 3-D array,
`out[i][j][d] = x[j][i][d]`. -/
def npTranspose102 (x : List (List (List ℚ))) : List (List (List ℚ)) :=
  match x with
  | [] => []
  | r :: _ =>
    (List.range r.length).map fun i =>
      (List.range x.length).map fun j =>
        (x.getD j []).getD i []

/-- `_hankel_matrix(data, q, p)` from `fnn/utils.py` on a row-major T×D
series: resolve `p` by truthiness (`p = len(data) - q` when `p` is absent
or zero), then per channel `row` of `data.T` take
`first = row[-(p+q):-p]`, `last = row[-p-1:]`, form
`hankel(first, last)`, `dstack` the channels, transpose axes `(1,0,2)`
and drop the final row (`[:-1]`). -/
def _hankel_matrix (data : List (List ℚ)) (q : ℕ) (p0 : Option ℕ) :
    List (List (List ℚ)) :=
  let p : ℕ := pyTruthy p0 (data.length - q)
  let all_hmats := (npT data).map fun row =>
    scipyHankel (pySlice row (-((p : ℤ) + q)) (some (-(p : ℤ))))
      (pySlice row (-(p : ℤ) - 1) none)
  (npTranspose102 (npDstack all_hmats)).dropLast

/-- `hankel_matrix` on a 2-D (T×D) input: falls through the rank dispatch
to `_hankel_matrix` unchanged. -/
def hankel_matrix_2d (data : List (List ℚ)) (q : ℕ) (p0 : Option ℕ) :
    List (List (List ℚ)) :=
  _hankel_matrix data q p0

/-- `hankel_matrix` on a 1-D input: `data = data[:, None]` promotes the
series to a T×1 array (the identical promotion is repeated inside
`_hankel_matrix` for 1-D input), then `_hankel_matrix` runs. -/
def hankel_matrix_1d (v : List ℚ) (q : ℕ) (p0 : Option ℕ) :
    List (List (List ℚ)) :=
  _hankel_matrix (v.map fun x => [x]) q p0

/-- `hankel_matrix` on a 3-D (N×T×D) batch:
`np.stack([_hankel_matrix(item, q, p) for item in data])`. -/
def hankel_matrix_batch (batch : List (List (List ℚ))) (q : ℕ) (p0 : Option ℕ) :
    List (List (List (List ℚ))) :=
  batch.map fun item => _hankel_matrix item q p0

/-- Line 76 of `fnn/utils.py`: `n_split = int((split/(1-split))*sample_size)`. -/
def train_test_n_split (split : ℚ) (sample_size : ℕ) : ℤ :=
  pyInt ((split / (1 - split)) * sample_size)

/-- `train_test(dataset, sample_size, time_window, split)` up to the two
Hankel matrices of lines 75–81: compute `n_split`, assert
`len(dataset) > sample_size + n_split` (`none` models the assertion
failing), then build the train matrix from the full series with
`p = sample_size` and the test matrix from `dataset[:n_split+time_window]`
— also with `p = sample_size` — both with width `time_window`.
Lines 83–85 then rescale both matrices by the same affine map
`x ↦ (x - mean hm_train) / (std * std hm_train)`; the scalar
`std hm_train` is a real square root, so the model returns the pair before
that rescale, which is what the partitioning properties below concern. -/
def train_test (dataset : List ℚ) (sample_size time_window : ℕ) (split : ℚ) :
    Option (List (List (List ℚ)) × List (List (List ℚ))) :=
  let n : ℤ := dataset.length
  let n_split := train_test_n_split split sample_size
  if (sample_size : ℤ) + n_split < n then
    some (hankel_matrix_1d dataset time_window (some sample_size),
      hankel_matrix_1d (pySlice dataset 0 (some (n_split + time_window)))
        time_window (some sample_size))
  else none

/-- `np.mean(a, axis=0)` at column `d` of a row-major T×D array. -/
noncomputable def npMeanCol (a : List (List ℝ)) (d : ℕ) : ℝ :=
  (a.map fun r => r.getD d 0).sum / a.length

/-- `np.std(a, axis=0)` at column `d`: the square root of the mean squared
deviation from the column mean (`ddof = 0`). -/
noncomputable def npStdCol (a : List (List ℝ)) (d : ℕ) : ℝ :=
  Real.sqrt ((a.map fun r => (r.getD d 0 - npMeanCol a d) ^ 2).sum / a.length)

/-- `standardize_ts(a, scale)` from `fnn/utils.py`: per column subtract the
mean and divide by `scale * std`, where a column whose std is exactly zero
has its divisor replaced by `scale * 1` (`stds[stds==0] = 1`). -/
noncomputable def standardize_ts (a : List (List ℝ)) (scale : ℝ) :
    List (List ℝ) :=
  a.map fun r => (List.range r.length).map fun d =>
    (r.getD d 0 - npMeanCol a d) /
      (scale * (if npStdCol a d = 0 then 1 else npStdCol a d))

/-- The names bound at module level in `fnn/utils.py`: the imports of
lines 1–10 and the functions the module itself defines. -/
def utils_module_names : List String :=
  ["np", "warnings", "scipy", "hankel", "orthogonal_procrustes",
   "periodogram", "argrelextrema", "savgol_filter", "pdist", "squareform",
   "directed_hausdorff", "procrustes", "plt",
   "hankel_matrix", "_hankel_matrix", "train_test", "standardize_ts",
   "arff_to_data", "fixed_aspect_ratio", "plot3dproj", "lighter"]

/-- Python name resolution for a bare global name: a `NameError` when the
name is not bound in the module namespace. -/
def pyLookup (env : List String) (n : String) : Except String Unit :=
  if n ∈ env then Except.ok () else Except.error ("NameError: name " ++ n)

/-- `arff_to_data(path, fmt_spec)`: its first statement,
`data, meta = arff.loadarff(path)` (line 116), resolves the bare name
`arff` in the module namespace before anything else runs; the remainder of
the body (label extraction and the `fmt_spec` dispatch) is unreachable
when that lookup fails, and is modelled as the opaque continuation it is
from the failing lookup's point of view. -/
def arff_to_data (path : String) (fmt_spec : ℤ) :
    Except String (List (List (List ℚ)) × List String) :=
  match pyLookup utils_module_names "arff" with
  | Except.error e => Except.error e
  | Except.ok _ => Except.error ("unreachable: loadarff on " ++ path ++
      " with fmt_spec " ++ toString fmt_spec)

/-! ### Indexing helpers -/

lemma getD_range_map {β : Type} (n : ℕ) (f : ℕ → β) (d : β) {i : ℕ}
    (hi : i < n) : ((List.range n).map f).getD i d = f i := by
  rw [List.getD_eq_getElem _ _ (by simpa using hi)]
  simp

lemma getD_map_of_lt {α β : Type} (f : α → β) (l : List α) (db : β) (da : α)
    {i : ℕ} (hi : i < l.length) : (l.map f).getD i db = f (l.getD i da) := by
  rw [List.getD_eq_getElem _ _ (by simpa using hi), List.getD_eq_getElem _ _ hi]
  simp

lemma headD_range_map {β : Type} (n : ℕ) (g : ℕ → β) (d : β) (hn : 1 ≤ n) :
    ((List.range n).map g).headD d = g 0 := by
  cases n with
  | zero => omega
  | succ m => rw [List.range_succ_eq_map]; simp

lemma getD_dropLast {α : Type} (l : List α) (d : α) {i : ℕ}
    (hi : i < l.length - 1) : l.dropLast.getD i d = l.getD i d := by
  rw [List.getD_eq_getElem _ _ (by simpa using hi),
    List.getD_eq_getElem _ _ (by omega), List.getElem_dropLast]

/-! ### `pySlice` on in-range negative bounds -/

lemma pySlice_neg_some (l : List ℚ) (a b : ℕ) (h1 : 1 ≤ b) (h2 : b ≤ a)
    (h3 : a ≤ l.length) :
    (pySlice l (-(a : ℤ)) (some (-(b : ℤ)))).length = a - b ∧
    ∀ (k : ℕ), k < a - b →
      (pySlice l (-(a : ℤ)) (some (-(b : ℤ)))).getD k 0
        = l.getD (l.length - a + k) 0 := by
  have ha : (-(a : ℤ) < 0) := by omega
  have hb : (-(b : ℤ) < 0) := by omega
  have hlo : (max ((l.length : ℤ) + -(a : ℤ)) 0).toNat = l.length - a := by omega
  have hhi : (max ((l.length : ℤ) + -(b : ℤ)) 0
      - max ((l.length : ℤ) + -(a : ℤ)) 0).toNat = a - b := by omega
  simp only [pySlice, if_pos ha, if_pos hb, hlo, hhi]
  constructor
  · simp; omega
  · intro k hk
    rw [List.getD_eq_getElem _ _ (by simp; omega),
      List.getD_eq_getElem _ _ (by omega), List.getElem_take,
      List.getElem_drop]

lemma pySlice_neg_none (l : List ℚ) (a : ℕ) (h1 : 1 ≤ a) (h3 : a ≤ l.length) :
    (pySlice l (-(a : ℤ)) none).length = a ∧
    ∀ (k : ℕ), k < a →
      (pySlice l (-(a : ℤ)) none).getD k 0 = l.getD (l.length - a + k) 0 := by
  have ha : (-(a : ℤ) < 0) := by omega
  have hlo : (max ((l.length : ℤ) + -(a : ℤ)) 0).toNat = l.length - a := by omega
  have hhi : ((l.length : ℤ) - max ((l.length : ℤ) + -(a : ℤ)) 0).toNat = a := by
    omega
  simp only [pySlice, if_pos ha, hlo, hhi]
  constructor
  · simp; omega
  · intro k hk
    rw [List.getD_eq_getElem _ _ (by simp; omega),
      List.getD_eq_getElem _ _ (by omega), List.getElem_take,
      List.getElem_drop]

/-! ### `scipyHankel` shape and entries -/

lemma scipyHankel_length (c r : List ℚ) :
    (scipyHankel c r).length = c.length := by
  simp [scipyHankel]

lemma scipyHankel_row_length (c r : List ℚ) {i : ℕ} (hi : i < c.length) :
    ((scipyHankel c r).getD i []).length = r.length := by
  rw [scipyHankel, getD_range_map _ _ _ hi]
  simp

lemma scipyHankel_getD (c r : List ℚ) {i j : ℕ} (hi : i < c.length)
    (hj : j < r.length) :
    ((scipyHankel c r).getD i []).getD j 0
      = if i + j < c.length then c.getD (i + j) 0
        else r.getD (i + j - c.length + 1) 0 := by
  rw [scipyHankel, getD_range_map _ _ _ hi, getD_range_map _ _ _ hj]

lemma headD_eq_getD_zero {α : Type} (l : List α) (d : α) :
    l.headD d = l.getD 0 d := by
  cases l <;> simp

/-! ### `npDstack` and `npTranspose102` shape and entries -/

lemma npDstack_spec (mats : List (List (List ℚ))) (a b : ℕ) (hne : mats ≠ [])
    (ha : (mats.headD []).length = a)
    (hb : ((mats.headD []).headD []).length = b) :
    (npDstack mats).length = a ∧
    (∀ i, i < a → ((npDstack mats).getD i []).length = b) ∧
    (∀ i, i < a → ∀ j, j < b →
      (((npDstack mats).getD i []).getD j []).length = mats.length) ∧
    (∀ i, i < a → ∀ j, j < b → ∀ d, d < mats.length →
      ((((npDstack mats).getD i []).getD j []).getD d 0)
        = ((mats.getD d []).getD i []).getD j 0) := by
  obtain ⟨m, rest, rfl⟩ := List.exists_cons_of_ne_nil hne
  have ham : m.length = a := by simpa using ha
  have hbm : (m.headD []).length = b := by simpa using hb
  refine ⟨by simp [npDstack, ham], ?_, ?_, ?_⟩
  · intro i hi
    rw [npDstack, getD_range_map _ _ _ (by omega)]
    simp only [List.length_map, List.length_range]
    exact hbm
  · intro i hi j hj
    rw [npDstack, getD_range_map _ _ _ (by omega),
      getD_range_map _ _ _ (by omega)]
    simp
  · intro i hi j hj d hd
    rw [npDstack, getD_range_map _ _ _ (by omega),
      getD_range_map _ _ _ (by omega), getD_map_of_lt _ _ _ [] hd]

lemma npTranspose102_spec (x : List (List (List ℚ))) (b : ℕ) (hne : x ≠ [])
    (hb : (x.headD []).length = b) :
    (npTranspose102 x).length = b ∧
    (∀ i, i < b → ((npTranspose102 x).getD i []).length = x.length) ∧
    (∀ i, i < b → ∀ j, j < x.length →
      ((npTranspose102 x).getD i []).getD j [] = (x.getD j []).getD i []) := by
  obtain ⟨r, rest, rfl⟩ := List.exists_cons_of_ne_nil hne
  have hbr : r.length = b := by simpa using hb
  refine ⟨by simp [npTranspose102, hbr], ?_, ?_⟩
  · intro i hi
    rw [npTranspose102, getD_range_map _ _ _ (by omega)]
    simp
  · intro i hi j hj
    rw [npTranspose102, getD_range_map _ _ _ (by omega),
      getD_range_map _ _ _ (by simpa using hj)]

/-! ### Master shape/entry characterization of `_hankel_matrix` -/

lemma _hankel_matrix_eq (data : List (List ℚ)) (q : ℕ) (p0 : Option ℕ) :
    _hankel_matrix data q p0 =
      (npTranspose102 (npDstack ((npT data).map fun row =>
        scipyHankel
          (pySlice row (-((pyTruthy p0 (data.length - q) : ℤ) + q))
            (some (-(pyTruthy p0 (data.length - q) : ℤ))))
          (pySlice row (-(pyTruthy p0 (data.length - q) : ℤ) - 1)
            none)))).dropLast := rfl

lemma _hankel_matrix_eq_fused (data : List (List ℚ)) (q : ℕ) (p0 : Option ℕ) :
    _hankel_matrix data q p0 =
      (npTranspose102 (npDstack
        ((List.range (data.headD []).length).map fun d =>
          scipyHankel
            (pySlice (data.map fun r => r.getD d 0)
              (-((pyTruthy p0 (data.length - q) : ℤ) + q))
              (some (-(pyTruthy p0 (data.length - q) : ℤ))))
            (pySlice (data.map fun r => r.getD d 0)
              (-(pyTruthy p0 (data.length - q) : ℤ) - 1)
              none)))).dropLast := by
  rw [_hankel_matrix_eq, npT, List.map_map]
  rfl

/-- The central fact about the code's Hankel construction: on a rectangular
T×D series with resolved height `p`, width `q ≥ 1`, `p ≥ 1`, `D ≥ 1` and
`p + q ≤ T`, the output is a p×q×D array whose `(i, j, d)` entry is sample
`T - p - q + (i + j)` of channel `d`. -/
lemma hankel_core (data : List (List ℚ)) (q p D : ℕ) (p0 : Option ℕ)
    (hps : pyTruthy p0 (data.length - q) = p)
    (hp : 1 ≤ p) (hq : 1 ≤ q) (hD : 1 ≤ D)
    (hT : p + q ≤ data.length)
    (hrect : ∀ r ∈ data, r.length = D) :
    (_hankel_matrix data q p0).length = p ∧
    (∀ i, i < p → ((_hankel_matrix data q p0).getD i []).length = q) ∧
    (∀ i, i < p → ∀ j, j < q →
      (((_hankel_matrix data q p0).getD i []).getD j []).length = D) ∧
    (∀ i, i < p → ∀ j, j < q → ∀ d, d < D →
      ((((_hankel_matrix data q p0).getD i []).getD j []).getD d 0)
        = (data.getD (data.length - p - q + (i + j)) []).getD d 0) := by
  have hcast1 : -((p : ℤ) + q) = -(((p + q : ℕ) : ℤ)) := by push_cast; ring
  have hcast2 : -(p : ℤ) - 1 = -(((p + 1 : ℕ) : ℤ)) := by push_cast; ring
  have hhead : (data.headD []).length = D := by
    cases data with
    | nil => simp at hT; omega
    | cons r0 rest => exact hrect r0 (by simp)
  rw [_hankel_matrix_eq_fused, hps, hhead]
  set G : ℕ → List (List ℚ) := fun d =>
    scipyHankel
      (pySlice (data.map fun r => r.getD d 0) (-((p : ℤ) + q))
        (some (-(p : ℤ))))
      (pySlice (data.map fun r => r.getD d 0) (-(p : ℤ) - 1) none) with hG
  have hchanlen : ∀ d : ℕ, (data.map fun r => r.getD d 0).length
      = data.length := by
    intro d; simp
  have hfirst : ∀ d : ℕ,
      (pySlice (data.map fun r => r.getD d 0) (-((p : ℤ) + q))
        (some (-(p : ℤ)))).length = q ∧
      ∀ (k : ℕ), k < q →
        (pySlice (data.map fun r => r.getD d 0) (-((p : ℤ) + q))
          (some (-(p : ℤ)))).getD k 0
          = (data.map fun r => r.getD d 0).getD (data.length - (p + q) + k) 0 := by
    intro d
    rw [hcast1]
    have h := pySlice_neg_some (data.map fun r => r.getD d 0) (p + q) p
      hp (by omega) (by rw [hchanlen]; omega)
    rw [hchanlen] at h
    refine ⟨by rw [h.1]; omega, ?_⟩
    intro k hk
    exact h.2 k (by omega)
  have hlast : ∀ d : ℕ,
      (pySlice (data.map fun r => r.getD d 0) (-(p : ℤ) - 1) none).length
        = p + 1 ∧
      ∀ (k : ℕ), k < p + 1 →
        (pySlice (data.map fun r => r.getD d 0) (-(p : ℤ) - 1) none).getD k 0
          = (data.map fun r => r.getD d 0).getD (data.length - (p + 1) + k) 0 := by
    intro d
    rw [hcast2]
    have h := pySlice_neg_none (data.map fun r => r.getD d 0) (p + 1)
      (by omega) (by rw [hchanlen]; omega)
    rw [hchanlen] at h
    exact h
  have hG_len : ∀ d : ℕ, (G d).length = q := by
    intro d
    rw [hG]
    rw [scipyHankel_length, (hfirst d).1]
  have hG_row_len : ∀ d : ℕ, ∀ x, x < q → ((G d).getD x []).length = p + 1 := by
    intro d x hx
    rw [hG]
    rw [scipyHankel_row_length _ _ (by rw [(hfirst d).1]; omega), (hlast d).1]
  have hG_entry : ∀ d : ℕ, ∀ x, x < q → ∀ y, y < p + 1 →
      ((G d).getD x []).getD y 0
        = (data.map fun r => r.getD d 0).getD (data.length - (p + q) + (x + y)) 0 := by
    intro d x hx y hy
    rw [hG]
    rw [scipyHankel_getD _ _ (by rw [(hfirst d).1]; omega)
      (by rw [(hlast d).1]; omega), (hfirst d).1]
    by_cases hcase : x + y < q
    · rw [if_pos hcase, (hfirst d).2 (x + y) hcase]
    · rw [if_neg hcase, (hlast d).2 (x + y - q + 1) (by omega)]
      congr 1
      omega
  have hAH_len : ((List.range D).map G).length = D := by simp
  have hAH_ne : ((List.range D).map G) ≠ [] := by
    intro h
    have := congrArg List.length h
    simp at this
    omega
  have hAH_getD : ∀ d, d < D → ((List.range D).map G).getD d [] = G d := by
    intro d hd
    exact getD_range_map _ _ _ hd
  have hAH_head : ((List.range D).map G).headD [] = G 0 := by
    rw [headD_eq_getD_zero, hAH_getD 0 (by omega)]
  have hdst := npDstack_spec ((List.range D).map G) q (p + 1) hAH_ne
    (by rw [hAH_head, hG_len]) (by
      rw [hAH_head, headD_eq_getD_zero, hG_row_len 0 0 (by omega)])
  have hdst_ne : npDstack ((List.range D).map G) ≠ [] := by
    intro h
    have := congrArg List.length h
    rw [hdst.1] at this
    simp at this
    omega
  have htr := npTranspose102_spec (npDstack ((List.range D).map G)) (p + 1)
    hdst_ne (by
      rw [headD_eq_getD_zero, (hdst.2.1) 0 (by omega)])
  have htr_len : (npTranspose102 (npDstack ((List.range D).map G))).length
      = p + 1 := htr.1
  refine ⟨?_, ?_, ?_, ?_⟩
  · rw [List.length_dropLast, htr_len]
    omega
  · intro i hi
    rw [getD_dropLast _ _ (by rw [htr_len]; omega),
      htr.2.1 i (by omega), hdst.1]
  · intro i hi j hj
    rw [getD_dropLast _ _ (by rw [htr_len]; omega),
      htr.2.2 i (by omega) j (by rw [hdst.1]; omega),
      hdst.2.2.1 j hj i (by omega), hAH_len]
  · intro i hi j hj d hd
    rw [getD_dropLast _ _ (by rw [htr_len]; omega),
      htr.2.2 i (by omega) j (by rw [hdst.1]; omega),
      hdst.2.2.2 j hj i (by omega) d (by rw [hAH_len]; omega),
      hAH_getD d hd, hG_entry d j hj i (by omega),
      getD_map_of_lt _ _ _ [] (show data.length - (p + q) + (j + i)
        < data.length by omega)]
    congr 2
    omega

lemma pyTruthy_some_pos (p : ℕ) (hp : 1 ≤ p) (dflt : ℕ) :
    pyTruthy (some p) dflt = p := by
  cases p with
  | zero => omega
  | succ k => rfl

lemma _hankel_matrix_p_irrel (data : List (List ℚ)) (q : ℕ) (p0 p1 : Option ℕ)
    (h : pyTruthy p0 (data.length - q) = pyTruthy p1 (data.length - q)) :
    _hankel_matrix data q p0 = _hankel_matrix data q p1 := by
  rw [_hankel_matrix_eq_fused, _hankel_matrix_eq_fused, h]

lemma pySlice_zero_some_length (l : List ℚ) (st : ℤ) (h0 : 0 ≤ st)
    (hk : st ≤ (l.length : ℤ)) :
    ((pySlice l 0 (some st)).length : ℤ) = st := by
  have hst : ¬ (st < 0) := by omega
  have h00 : ¬ ((0 : ℤ) < 0) := by omega
  simp only [pySlice, if_neg hst]
  simp only [List.length_take, List.length_drop]
  omega

/-! ### C1: the entry formula of the Hankel construction -/

/-- C1 (counterexample): the claimed formula
`H[i, j, d] = series[d][T - p - q + 1 + i + j]` fails at the single-channel
series `[0, 1, 2]` with `q = 1`, `p = 2`: entry `(0, 0, 0)` of the code's
output is `series[0][0] = 0`, while the claim's right-hand side is
`series[0][3 - 2 - 1 + 1 + 0 + 0] = series[0][1] = 1`. -/
theorem hankel_entry_claim_cex :
    ¬ ((((hankel_matrix_2d [[0], [1], [2]] 1 (some 2)).getD 0 []).getD 0
          []).getD 0 0
        = (([[(0 : ℚ)], [1], [2]].getD (3 - 2 - 1 + 1 + 0 + 0) []).getD 0 0)) := by
  decide

/-- C1 (amended): for a T×D series with `p, q, D ≥ 1` and `T ≥ p + q`, the
output `H` of the Hankel construction satisfies
`H[i, j, d] = series[d][T - p - q + i + j]` (without the claim's `+ 1`):
rows are successive shifted length-`q` windows drawn from the points
`T-p-q .. T-2` of the series. -/
theorem hankel_entry_formula (data : List (List ℚ)) (q p D i j d : ℕ)
    (hp : 1 ≤ p) (hq : 1 ≤ q) (hD : 1 ≤ D) (hT : p + q ≤ data.length)
    (hrect : ∀ r ∈ data, r.length = D)
    (hi : i < p) (hj : j < q) (hd : d < D) :
    (((hankel_matrix_2d data q (some p)).getD i []).getD j []).getD d 0
      = (data.getD (data.length - p - q + (i + j)) []).getD d 0 := by
  have h := hankel_core data q p D (some p)
    (pyTruthy_some_pos p hp _) hp hq hD hT hrect
  exact h.2.2.2 i hi j hj d hd

/-- C1 witness instance. -/
theorem hankel_entry_formula_wit :
    (((hankel_matrix_2d [[0], [1], [2]] 1 (some 2)).getD 0 []).getD 0
        []).getD 0 0
      = (([[(0 : ℚ)], [1], [2]].getD (3 - 2 - 1 + (0 + 0)) []).getD 0 0) :=
  hankel_entry_formula [[0], [1], [2]] 1 2 1 0 0 0 (by decide) (by decide)
    (by decide) (by decide) (by decide) (by decide) (by decide) (by decide)

/-! ### C5: anti-diagonals are constant -/

/-- C5: on every valid input, each channel slice of the output is a Hankel
matrix: entries with `i + j = i' + j'` agree. -/
theorem hankel_antidiagonal_const (data : List (List ℚ))
    (q p D i j i' j' d : ℕ)
    (hp : 1 ≤ p) (hq : 1 ≤ q) (hD : 1 ≤ D) (hT : p + q ≤ data.length)
    (hrect : ∀ r ∈ data, r.length = D)
    (hi : i < p) (hj : j < q) (hi' : i' < p) (hj' : j' < q) (hd : d < D)
    (hdiag : i + j = i' + j') :
    (((hankel_matrix_2d data q (some p)).getD i []).getD j []).getD d 0
      = (((hankel_matrix_2d data q (some p)).getD i' []).getD j' []).getD d 0 := by
  have h := hankel_core data q p D (some p)
    (pyTruthy_some_pos p hp _) hp hq hD hT hrect
  simp only [hankel_matrix_2d]
  rw [h.2.2.2 i hi j hj d hd, h.2.2.2 i' hi' j' hj' d hd, hdiag]

/-- C5 witness instance. -/
theorem hankel_antidiagonal_const_wit :
    (((hankel_matrix_2d [[0], [1], [2], [3]] 2 (some 2)).getD 0 []).getD 1
        []).getD 0 0
      = (((hankel_matrix_2d [[0], [1], [2], [3]] 2 (some 2)).getD 1
          []).getD 0 []).getD 0 0 :=
  hankel_antidiagonal_const [[0], [1], [2], [3]] 2 2 1 0 1 1 0 0 (by decide)
    (by decide) (by decide) (by decide) (by decide) (by decide) (by decide)
    (by decide) (by decide) (by decide) (by decide)

/-! ### C4: output shapes -/

/-- C4: for `p, q, D ≥ 1` and `T ≥ p + q`, the output on a single T×D
series has shape `(p, q, D)`, and the output on a batch of `N` such series
has shape `(N, p, q, D)`. -/
theorem hankel_shape (data : List (List ℚ)) (batch : List (List (List ℚ)))
    (q p D T : ℕ) (hp : 1 ≤ p) (hq : 1 ≤ q) (hD : 1 ≤ D) (hT : p + q ≤ T)
    (hdlen : data.length = T) (hdrect : ∀ r ∈ data, r.length = D)
    (hbatch : ∀ s ∈ batch, s.length = T ∧ ∀ r ∈ s, r.length = D) :
    ((hankel_matrix_2d data q (some p)).length = p ∧
     (∀ i, i < p → ((hankel_matrix_2d data q (some p)).getD i []).length = q) ∧
     (∀ i, i < p → ∀ j, j < q →
       (((hankel_matrix_2d data q (some p)).getD i []).getD j []).length = D)) ∧
    ((hankel_matrix_batch batch q (some p)).length = batch.length ∧
     (∀ k, k < batch.length →
       ((hankel_matrix_batch batch q (some p)).getD k []).length = p ∧
       (∀ i, i < p →
         (((hankel_matrix_batch batch q (some p)).getD k []).getD i
           []).length = q) ∧
       (∀ i, i < p → ∀ j, j < q →
         ((((hankel_matrix_batch batch q (some p)).getD k []).getD i
           []).getD j []).length = D))) := by
  constructor
  · have h := hankel_core data q p D (some p)
      (pyTruthy_some_pos p hp _) hp hq hD (by omega) hdrect
    exact ⟨h.1, h.2.1, h.2.2.1⟩
  · constructor
    · simp [hankel_matrix_batch]
    · intro k hk
      have hmem : batch.getD k [] ∈ batch := by
        rw [List.getD_eq_getElem _ _ hk]
        exact List.getElem_mem hk
      have hitem := hbatch (batch.getD k []) hmem
      have h := hankel_core (batch.getD k []) q p D (some p)
        (pyTruthy_some_pos p hp _) hp hq hD (by omega) hitem.2
      have hslice : (hankel_matrix_batch batch q (some p)).getD k []
          = _hankel_matrix (batch.getD k []) q (some p) := by
        rw [hankel_matrix_batch, getD_map_of_lt _ _ _ [] hk]
      rw [hslice]
      exact ⟨h.1, h.2.1, h.2.2.1⟩

/-- C4 witness instance. -/
theorem hankel_shape_wit :
    (((hankel_matrix_2d [[0], [1], [2]] 1 (some 2)).length = 2 ∧
     (∀ i, i < 2 →
       ((hankel_matrix_2d [[0], [1], [2]] 1 (some 2)).getD i []).length = 1) ∧
     (∀ i, i < 2 → ∀ j, j < 1 →
       (((hankel_matrix_2d [[0], [1], [2]] 1 (some 2)).getD i []).getD j
         []).length = 1)) ∧
    ((hankel_matrix_batch [[[0], [1], [2]], [[3], [4], [5]]] 1
        (some 2)).length = 2 ∧
     (∀ k, k < ([[[0], [1], [2]], [[3], [4], [5]]] :
         List (List (List ℚ))).length →
       ((hankel_matrix_batch [[[0], [1], [2]], [[3], [4], [5]]] 1
          (some 2)).getD k []).length = 2 ∧
       (∀ i, i < 2 →
         (((hankel_matrix_batch [[[0], [1], [2]], [[3], [4], [5]]] 1
            (some 2)).getD k []).getD i []).length = 1) ∧
       (∀ i, i < 2 → ∀ j, j < 1 →
         ((((hankel_matrix_batch [[[0], [1], [2]], [[3], [4], [5]]] 1
            (some 2)).getD k []).getD i []).getD j []).length = 1)))) :=
  hankel_shape [[0], [1], [2]] [[[0], [1], [2]], [[3], [4], [5]]] 1 2 1 3
    (by decide) (by decide) (by decide) (by decide) (by decide) (by decide)
    (by decide)

/-! ### C6: batch processing is per-sample -/

/-- C6: on a batch, the output's leading axis has the batch's size, and
slice `k` equals the Hankel matrix of series `k` alone (for any `q` and
optional `p`, since the per-item default-`p` resolution is identical on
both paths). -/
theorem hankel_batch_slices (batch : List (List (List ℚ))) (q : ℕ)
    (p0 : Option ℕ) (k : ℕ) (hk : k < batch.length) :
    (hankel_matrix_batch batch q p0).length = batch.length ∧
    (hankel_matrix_batch batch q p0).getD k []
      = hankel_matrix_2d (batch.getD k []) q p0 := by
  refine ⟨by simp [hankel_matrix_batch], ?_⟩
  rw [hankel_matrix_batch, getD_map_of_lt _ _ _ [] hk]
  rfl

/-- C6 witness instance. -/
theorem hankel_batch_slices_wit :
    (hankel_matrix_batch [[[0], [1], [2]], [[3], [4], [5]]] 1 none).length
      = ([[[0], [1], [2]], [[3], [4], [5]]] :
          List (List (List ℚ))).length ∧
    (hankel_matrix_batch [[[0], [1], [2]], [[3], [4], [5]]] 1 none).getD 1 []
      = hankel_matrix_2d (([[[0], [1], [2]], [[3], [4], [5]]] :
          List (List (List ℚ))).getD 1 []) 1 none :=
  hankel_batch_slices [[[0], [1], [2]], [[3], [4], [5]]] 1 none 1 (by decide)

/-! ### C3: the size of the test partition -/

/-- C3 (counterexample): at `split = 13/20`, `sample_size = 1` the code's
`n_split = int((split/(1-split))*sample_size) = int(13/7) = 1`, while
rounding to the nearest integer gives `2`. -/
theorem n_split_round_cex :
    train_test_n_split (13 / 20) 1 ≠ round ((13 / 20 : ℚ) / (1 - 13 / 20) * 1) := by
  norm_num [train_test_n_split, pyInt, round_eq]

/-- C3 (amended): `n_split` is the truncation toward zero of
`(split/(1-split))*sample_size` — for `0 ≤ split < 1` the floor of that
ratio, not its rounding to the nearest integer. -/
theorem n_split_is_floor (split : ℚ) (S : ℕ) (h0 : 0 ≤ split)
    (h1 : split < 1) :
    train_test_n_split split S = ⌊split / (1 - split) * S⌋ := by
  rw [train_test_n_split, pyInt, if_pos]
  exact mul_nonneg (div_nonneg h0 (by linarith)) (by positivity)

/-- C3 witness instance. -/
theorem n_split_is_floor_wit :
    train_test_n_split (1 / 2) 4 = ⌊(1 / 2 : ℚ) / (1 - 1 / 2) * 4⌋ :=
  n_split_is_floor (1 / 2) 4 (by norm_num) (by norm_num)

/-! ### C7: the insufficient-data guard -/

/-- C7: away from the `split = 1` pole (where the code dies earlier with a
division by zero), `train_test` fails with the insufficient-data assertion
exactly when `len(dataset) ≤ sample_size + n_split`, and succeeds on every
dataset with `len(dataset) > sample_size + n_split`. -/
theorem train_test_insufficient_iff (dataset : List ℚ) (S W : ℕ)
    (split : ℚ) (_hs : split ≠ 1) :
    train_test dataset S W split = none
      ↔ (dataset.length : ℤ) ≤ (S : ℤ) + train_test_n_split split S := by
  simp only [train_test]
  by_cases h : (S : ℤ) + train_test_n_split split S < (dataset.length : ℤ)
  · rw [if_pos h]
    simp
    omega
  · rw [if_neg h]
    simp
    omega

/-- C7 witness instance. -/
theorem train_test_insufficient_iff_wit :
    (train_test [0, 1, 2, 3, 4] 1 1 (1 / 2) = none
      ↔ (([0, 1, 2, 3, 4] : List ℚ).length : ℤ)
          ≤ (1 : ℤ) + train_test_n_split (1 / 2) 1) :=
  train_test_insufficient_iff [0, 1, 2, 3, 4] 1 1 (1 / 2) (by norm_num)

/-! ### C2: how the test matrix is built -/

/-- C2 (counterexample): at `dataset = [0,1,2,3,4]`, `sample_size = 1`,
`time_window = 1`, `split = 2/3` the guard passes with `n_split = 2`, and
the code's test matrix — built with `p = sample_size = 1` — is `[[[1]]]`,
whereas the Hankel matrix of the first `n_split + time_window = 3` samples
with the default `p` is the 2×1×1 array `[[[0]], [[1]]]`. -/
theorem train_test_default_p_cex :
    train_test_n_split (2 / 3) 1 = 2 ∧
    (train_test [0, 1, 2, 3, 4] 1 1 (2 / 3)).map Prod.snd
      = some [[[(1 : ℚ)]]] ∧
    hankel_matrix_1d (List.take (2 + 1) [0, 1, 2, 3, 4]) 1 none
      = [[[(0 : ℚ)]], [[1]]] ∧
    ([[[(1 : ℚ)]]] : List (List (List ℚ))) ≠ [[[0]], [[1]]] := by
  have h1 : train_test_n_split (2 / 3) 1 = 2 := by
    norm_num [train_test_n_split, pyInt]
  refine ⟨h1, ?_, by decide, by decide⟩
  simp only [train_test, h1]
  decide

/-- C2 (amended): the test matrix is built from the first
`n_split + time_window` samples with width `time_window` but with
`p = sample_size` passed explicitly; this coincides with the default-`p`
construction the claim describes exactly when `n_split = sample_size`
(as under the default `split = 0.5`). Under that restriction, the claim's
statement holds. -/
theorem train_test_test_matrix (dataset : List ℚ) (S W : ℕ) (split : ℚ)
    (hS : 1 ≤ S) (hW : 1 ≤ W)
    (hn : train_test_n_split split S = (S : ℤ))
    (hlen : S + W ≤ dataset.length)
    (hguard : (S : ℤ) + train_test_n_split split S < (dataset.length : ℤ)) :
    (train_test dataset S W split).map Prod.snd
      = some (hankel_matrix_1d
          (pySlice dataset 0 (some (train_test_n_split split S + W)))
          W none) := by
  simp only [train_test, if_pos hguard, Option.map_some]
  refine congrArg some ?_
  have htrunc : (pySlice dataset 0
      (some (train_test_n_split split S + W))).length = S + W := by
    have h := pySlice_zero_some_length dataset
      (train_test_n_split split S + W) (by omega) (by omega)
    omega
  simp only [hankel_matrix_1d]
  apply _hankel_matrix_p_irrel
  rw [List.length_map, htrunc, pyTruthy_some_pos S hS]
  have : S + W - W = S := by omega
  rw [this]
  rfl

/-- C2 witness instance (`split = 1/2`, where `n_split = sample_size`). -/
theorem train_test_test_matrix_wit :
    (train_test [0, 1, 2, 3, 4] 1 1 (1 / 2)).map Prod.snd
      = some (hankel_matrix_1d
          (pySlice [0, 1, 2, 3, 4] 0 (some (train_test_n_split (1 / 2) 1 + 1)))
          1 none) :=
  train_test_test_matrix [0, 1, 2, 3, 4] 1 1 (1 / 2) (by decide) (by decide)
    (by norm_num [train_test_n_split, pyInt])
    (by decide)
    (by norm_num [train_test_n_split, pyInt])

/-! ### C10: `arff` is unbound in the module -/

/-- C10: the name `arff` is not bound by any import or definition of
`fnn/utils.py`, so every call of `arff_to_data` — for every path and every
`fmt_spec` — fails with a `NameError` at its first statement, before any
parsing or `fmt_spec` dispatch. -/
theorem arff_name_unbound :
    "arff" ∉ utils_module_names ∧
    ∀ (path : String) (fmt_spec : ℤ),
      arff_to_data path fmt_spec
        = Except.error "NameError: name arff" := by
  refine ⟨by decide, ?_⟩
  intro path fmt_spec
  rfl

/-! ### C8: shape preservation and constant channels of `standardize_ts` -/

lemma getD_mem {α : Type} (l : List α) (d : α) {i : ℕ} (hi : i < l.length) :
    l.getD i d ∈ l := by
  rw [List.getD_eq_getElem _ _ hi]
  exact List.getElem_mem hi

lemma standardize_ts_entry (a : List (List ℝ)) (s : ℝ) (D : ℕ)
    (hrect : ∀ r ∈ a, r.length = D) (t d : ℕ) (ht : t < a.length)
    (hd : d < D) :
    ((standardize_ts a s).getD t []).getD d 0
      = ((a.getD t []).getD d 0 - npMeanCol a d) /
        (s * (if npStdCol a d = 0 then 1 else npStdCol a d)) := by
  rw [standardize_ts, getD_map_of_lt _ _ _ [] ht,
    getD_range_map _ _ _ (by rw [hrect _ (getD_mem a [] ht)]; omega)]

/-- C8: `standardize_ts` preserves the shape of its input exactly, and any
channel that is constant across the rows becomes identically zero in the
output (its numerator vanishes entrywise, whatever divisor the
zero-variance guard substitutes). -/
theorem standardize_const_channel (a : List (List ℝ)) (scale : ℝ) (c : ℝ)
    (d : ℕ) (hconst : ∀ r ∈ a, r.getD d 0 = c) :
    (standardize_ts a scale).length = a.length ∧
    (∀ t, t < a.length →
      ((standardize_ts a scale).getD t []).length = (a.getD t []).length) ∧
    (∀ t, t < a.length → d < (a.getD t []).length →
      ((standardize_ts a scale).getD t []).getD d 0 = 0) := by
  refine ⟨by simp [standardize_ts], ?_, ?_⟩
  · intro t ht
    rw [standardize_ts, getD_map_of_lt _ _ _ [] ht]
    simp
  · intro t ht hd
    have hTpos : (0 : ℝ) < a.length := by
      have : 0 < a.length := by omega
      exact_mod_cast this
    have hmean : npMeanCol a d = c := by
      rw [npMeanCol]
      have hall : ∀ x ∈ (a.map fun r => r.getD d 0), x = c := by
        intro x hx
        obtain ⟨r, hr, rfl⟩ := List.mem_map.1 hx
        exact hconst r hr
      rw [List.sum_eq_card_nsmul _ _ hall]
      simp only [List.length_map]
      rw [nsmul_eq_mul]
      field_simp
    rw [standardize_ts, getD_map_of_lt _ _ _ [] ht,
      getD_range_map _ _ _ hd, hmean,
      hconst (a.getD t []) (getD_mem a [] ht)]
    simp

/-- C8 witness instance. -/
theorem standardize_const_channel_wit :
    (standardize_ts [[5], [5]] 2).length = ([[5], [5]] : List (List ℝ)).length ∧
    (∀ t, t < ([[5], [5]] : List (List ℝ)).length →
      ((standardize_ts [[5], [5]] 2).getD t []).length
        = (([[5], [5]] : List (List ℝ)).getD t []).length) ∧
    (∀ t, t < ([[5], [5]] : List (List ℝ)).length →
      0 < (([[5], [5]] : List (List ℝ)).getD t []).length →
      ((standardize_ts [[5], [5]] 2).getD t []).getD 0 0 = 0) :=
  standardize_const_channel [[5], [5]] 2 5 0 (by
    intro r hr
    simp only [List.mem_cons, List.not_mem_nil, or_false] at hr
    rcases hr with rfl | rfl <;> norm_num)

/-! ### C9: idempotence of `standardize_ts` -/

lemma col_sum_div (a : List (List ℝ)) (d : ℕ) (m c : ℝ) :
    (a.map fun r => (r.getD d 0 - m) / c).sum
      = ((a.map fun r => r.getD d 0).sum - a.length * m) / c := by
  induction a with
  | nil => simp
  | cons x xs ih =>
    simp only [List.map_cons, List.sum_cons, ih, List.length_cons]
    push_cast
    ring

lemma col_sum_sq_div (a : List (List ℝ)) (d : ℕ) (m c : ℝ) :
    (a.map fun r => ((r.getD d 0 - m) / c) ^ 2).sum
      = (a.map fun r => (r.getD d 0 - m) ^ 2).sum / c ^ 2 := by
  induction a with
  | nil => simp
  | cons x xs ih =>
    simp only [List.map_cons, List.sum_cons, ih]
    rw [div_pow]
    ring

lemma list_nonneg_sum_zero (l : List ℝ) (hz : l.sum = 0)
    (hnn : ∀ x ∈ l, 0 ≤ x) : ∀ x ∈ l, x = 0 := by
  induction l with
  | nil => simp
  | cons y ys ih =>
    have hy : 0 ≤ y := hnn y (by simp)
    have hys : 0 ≤ ys.sum :=
      List.sum_nonneg fun z hz' => hnn z (by simp [hz'])
    have hsum : y + ys.sum = 0 := by simpa using hz
    have hy0 : y = 0 := by linarith
    have hys0 : ys.sum = 0 := by linarith
    intro x hx
    rcases List.mem_cons.1 hx with rfl | hx'
    · exact hy0
    · exact ih hys0 (fun z hz' => hnn z (by simp [hz'])) x hx'

lemma standardize_ts_length (a : List (List ℝ)) (s : ℝ) :
    (standardize_ts a s).length = a.length := by
  simp [standardize_ts]

lemma standardize_ts_rect (a : List (List ℝ)) (s : ℝ) (D : ℕ)
    (hrect : ∀ r ∈ a, r.length = D) :
    ∀ r ∈ standardize_ts a s, r.length = D := by
  intro r hr
  rw [standardize_ts] at hr
  obtain ⟨r0, hr0, rfl⟩ := List.mem_map.1 hr
  simp [hrect r0 hr0]

lemma standardize_ts_col (a : List (List ℝ)) (s : ℝ) (D d : ℕ)
    (hrect : ∀ r ∈ a, r.length = D) (hd : d < D) :
    (standardize_ts a s).map (fun r => r.getD d 0)
      = a.map fun r => (r.getD d 0 - npMeanCol a d) /
          (s * (if npStdCol a d = 0 then 1 else npStdCol a d)) := by
  rw [standardize_ts, List.map_map]
  apply List.map_congr_left
  intro r hr
  simp only [Function.comp_apply]
  rw [getD_range_map _ _ _ (by rw [hrect r hr]; omega)]

lemma npStdCol_nonneg (a : List (List ℝ)) (d : ℕ) : 0 ≤ npStdCol a d := by
  rw [npStdCol]
  exact Real.sqrt_nonneg _

lemma npStdCol_zero_entries (a : List (List ℝ)) (d : ℕ) (r0 : List ℝ)
    (hr0 : r0 ∈ a) (hz : npStdCol a d = 0) :
    r0.getD d 0 = npMeanCol a d := by
  have hTpos : (0 : ℝ) < a.length := by
    have : 0 < a.length := List.length_pos.2 (List.ne_nil_of_mem hr0)
    exact_mod_cast this
  have hnn : ∀ x ∈ (a.map fun r => (r.getD d 0 - npMeanCol a d) ^ 2),
      0 ≤ x := by
    intro x hx
    obtain ⟨r, _, rfl⟩ := List.mem_map.1 hx
    positivity
  have hsum_nonneg :
      0 ≤ (a.map fun r => (r.getD d 0 - npMeanCol a d) ^ 2).sum :=
    List.sum_nonneg hnn
  rw [npStdCol, Real.sqrt_eq_zero (by positivity)] at hz
  have hsumzero :
      (a.map fun r => (r.getD d 0 - npMeanCol a d) ^ 2).sum = 0 := by
    rcases div_eq_zero_iff.1 hz with h | h
    · exact h
    · exact absurd h (by positivity)
  have helem : (r0.getD d 0 - npMeanCol a d) ^ 2 = 0 :=
    list_nonneg_sum_zero _ hsumzero hnn _ (List.mem_map.2 ⟨r0, hr0, rfl⟩)
  have := pow_eq_zero_iff (n := 2) (by omega) |>.1 helem
  linarith [sub_eq_zero.1 this]

lemma standardize_ts_mean (a : List (List ℝ)) (s : ℝ) (D d : ℕ)
    (hrect : ∀ r ∈ a, r.length = D) (hd : d < D) :
    npMeanCol (standardize_ts a s) d = 0 := by
  rcases Nat.eq_zero_or_pos a.length with h0 | hpos
  · have ha : a = [] := List.eq_nil_of_length_eq_zero h0
    subst ha
    simp [standardize_ts, npMeanCol]
  · have hT : (a.length : ℝ) ≠ 0 := by
      have : 0 < a.length := hpos
      positivity
    rw [npMeanCol, standardize_ts_length,
      standardize_ts_col a s D d hrect hd, col_sum_div]
    have hmul : (a.map fun r => r.getD d 0).sum
        = a.length * npMeanCol a d := by
      rw [npMeanCol, mul_comm, div_mul_cancel₀ _ hT]
    rw [hmul]
    simp

lemma sum_sq_col_of_col_eq (y a : List (List ℝ)) (d : ℕ) (m c : ℝ)
    (hcol : y.map (fun r => r.getD d 0)
      = a.map fun r => (r.getD d 0 - m) / c) :
    (y.map fun r => r.getD d 0 ^ 2).sum
      = (a.map fun r => (r.getD d 0 - m) ^ 2).sum / c ^ 2 := by
  have h1 : (y.map fun r => r.getD d 0 ^ 2)
      = (y.map fun r => r.getD d 0).map fun x => x ^ 2 := by
    rw [List.map_map]
    rfl
  rw [h1, hcol, List.map_map]
  have h2 : ((fun x : ℝ => x ^ 2) ∘ fun r : List ℝ => (r.getD d 0 - m) / c)
      = fun r : List ℝ => ((r.getD d 0 - m) / c) ^ 2 := rfl
  rw [h2, col_sum_sq_div]

lemma standardize_ts_std (a : List (List ℝ)) (s : ℝ) (D d : ℕ)
    (hrect : ∀ r ∈ a, r.length = D) (hd : d < D) (hs : 0 < s) :
    npStdCol (standardize_ts a s) d
      = npStdCol a d
        / (s * (if npStdCol a d = 0 then 1 else npStdCol a d)) := by
  have hCpos : 0 < s * (if npStdCol a d = 0 then 1 else npStdCol a d) := by
    by_cases h : npStdCol a d = 0
    · rw [if_pos h]
      simpa using hs
    · rw [if_neg h]
      exact mul_pos hs (lt_of_le_of_ne (npStdCol_nonneg a d) (Ne.symm h))
  rcases Nat.eq_zero_or_pos a.length with h0 | hpos
  · have ha : a = [] := List.eq_nil_of_length_eq_zero h0
    subst ha
    simp [standardize_ts, npStdCol, npMeanCol]
  · have hmean := standardize_ts_mean a s D d hrect hd
    have hnum_nonneg :
        0 ≤ (a.map fun r => (r.getD d 0 - npMeanCol a d) ^ 2).sum :=
      List.sum_nonneg (by
        intro x hx
        obtain ⟨r, _, rfl⟩ := List.mem_map.1 hx
        positivity)
    have hq_nonneg :
        0 ≤ (a.map fun r => (r.getD d 0 - npMeanCol a d) ^ 2).sum
          / (a.length : ℝ) :=
      div_nonneg hnum_nonneg (by positivity)
    have hsq : ((standardize_ts a s).map fun r =>
        (r.getD d 0 - npMeanCol (standardize_ts a s) d) ^ 2).sum
        = (a.map fun r => (r.getD d 0 - npMeanCol a d) ^ 2).sum
          / (s * (if npStdCol a d = 0 then 1 else npStdCol a d)) ^ 2 := by
      rw [hmean]
      simp only [sub_zero]
      exact sum_sq_col_of_col_eq _ a d _ _
        (standardize_ts_col a s D d hrect hd)
    rw [npStdCol, standardize_ts_length, hsq, div_right_comm,
      Real.sqrt_div hq_nonneg, Real.sqrt_sq hCpos.le, ← npStdCol]

/-- C9 (amended): for every rectangular input and every `scale > 0`,
`standardize_ts` is exactly idempotent: the second pass is the identity on
the first pass's output, both on zero-variance channels (identically zero
after the first pass) and on the rest (whose second-pass mean is `0` and
std is `1/scale`). For negative scale the second pass negates instead (see
the counterexample), so the claim holds only for positive scale. -/
theorem standardize_ts_idempotent (a : List (List ℝ)) (s : ℝ) (D : ℕ)
    (hs : 0 < s) (hrect : ∀ r ∈ a, r.length = D) :
    standardize_ts (standardize_ts a s) s = standardize_ts a s := by
  have hrow : ∀ r ∈ standardize_ts a s,
      ((List.range r.length).map fun d =>
        (r.getD d 0 - npMeanCol (standardize_ts a s) d) /
          (s * (if npStdCol (standardize_ts a s) d = 0 then 1
            else npStdCol (standardize_ts a s) d))) = r := by
    intro r hr
    obtain ⟨r0, hr0, rfl⟩ := List.mem_map.1 (by
      rw [standardize_ts] at hr
      exact hr)
    simp only [List.length_map, List.length_range]
    apply List.map_congr_left
    intro d hd
    have hdr0 : d < r0.length := List.mem_range.1 hd
    have hdD : d < D := by
      rw [← hrect r0 hr0]
      exact hdr0
    rw [getD_range_map _ _ _ hdr0,
      standardize_ts_mean a s D d hrect hdD,
      standardize_ts_std a s D d hrect hdD hs, sub_zero]
    by_cases hzero : npStdCol a d = 0
    · rw [if_pos hzero, npStdCol_zero_entries a d r0 hr0 hzero, sub_self,
        zero_div, zero_div]
    · rw [if_neg hzero]
      have hσpos : 0 < npStdCol a d :=
        lt_of_le_of_ne (npStdCol_nonneg a d) (Ne.symm hzero)
      have hratio : npStdCol a d / (s * npStdCol a d) = 1 / s := by
        field_simp
        ring
      rw [hratio, if_neg (one_div_ne_zero hs.ne'),
        mul_one_div_cancel hs.ne', div_one]
  calc standardize_ts (standardize_ts a s) s
      = (standardize_ts a s).map (fun r =>
          (List.range r.length).map fun d =>
            (r.getD d 0 - npMeanCol (standardize_ts a s) d) /
              (s * (if npStdCol (standardize_ts a s) d = 0 then 1
                else npStdCol (standardize_ts a s) d))) := rfl
    _ = (standardize_ts a s).map id :=
        List.map_congr_left fun r hr => hrow r hr
    _ = standardize_ts a s := List.map_id _

/-- C9 witness instance. -/
theorem standardize_ts_idempotent_wit :
    standardize_ts (standardize_ts [[(0 : ℝ)], [1]] 1) 1
      = standardize_ts [[(0 : ℝ)], [1]] 1 :=
  standardize_ts_idempotent [[(0 : ℝ)], [1]] 1 1 (by norm_num) (by
    intro r hr
    simp only [List.mem_cons, List.not_mem_nil, or_false] at hr
    rcases hr with rfl | rfl <;> rfl)

/-- C9 (counterexample): idempotence fails for negative scale. For the
series `[[0], [1]]` and `scale = -1` the first pass gives `[[1], [-1]]`
(its only channel has mean `1/2` and std `1/2`, no divisor substitution),
but the second pass negates it to `[[-1], [1]]`: the second pass is not a
no-op, and the failing channel is not a substituted-divisor channel. -/
theorem standardize_ts_idem_cex :
    standardize_ts (standardize_ts [[(0 : ℝ)], [1]] (-1)) (-1)
      ≠ standardize_ts [[(0 : ℝ)], [1]] (-1) := by
  have hm : npMeanCol [[(0 : ℝ)], [1]] 0 = 1 / 2 := by
    norm_num [npMeanCol]
  have harg : ((([[(0 : ℝ)], [1]] : List (List ℝ)).map fun r =>
      (r.getD 0 0 - npMeanCol [[(0 : ℝ)], [1]] 0) ^ 2).sum
      / (([[(0 : ℝ)], [1]] : List (List ℝ)).length : ℝ)) = (1 / 2) ^ 2 := by
    norm_num [hm]
  have hσ : npStdCol [[(0 : ℝ)], [1]] 0 = 1 / 2 := by
    rw [npStdCol, harg, Real.sqrt_sq (by norm_num : (0 : ℝ) ≤ 1 / 2)]
  have hy : standardize_ts [[(0 : ℝ)], [1]] (-1) = [[1], [-1]] := by
    show [[((0 : ℝ) - npMeanCol [[(0 : ℝ)], [1]] 0) /
            (-1 * (if npStdCol [[(0 : ℝ)], [1]] 0 = 0 then 1
              else npStdCol [[(0 : ℝ)], [1]] 0))],
          [((1 : ℝ) - npMeanCol [[(0 : ℝ)], [1]] 0) /
            (-1 * (if npStdCol [[(0 : ℝ)], [1]] 0 = 0 then 1
              else npStdCol [[(0 : ℝ)], [1]] 0))]] = [[1], [-1]]
    rw [hm, hσ]
    norm_num
  have hm2 : npMeanCol [[(1 : ℝ)], [-1]] 0 = 0 := by
    norm_num [npMeanCol]
  have harg2 : ((([[(1 : ℝ)], [-1]] : List (List ℝ)).map fun r =>
      (r.getD 0 0 - npMeanCol [[(1 : ℝ)], [-1]] 0) ^ 2).sum
      / (([[(1 : ℝ)], [-1]] : List (List ℝ)).length : ℝ)) = 1 := by
    norm_num [hm2]
  have hσ2 : npStdCol [[(1 : ℝ)], [-1]] 0 = 1 := by
    rw [npStdCol, harg2, Real.sqrt_one]
  have hz : standardize_ts [[(1 : ℝ)], [-1]] (-1) = [[-1], [1]] := by
    show [[((1 : ℝ) - npMeanCol [[(1 : ℝ)], [-1]] 0) /
            (-1 * (if npStdCol [[(1 : ℝ)], [-1]] 0 = 0 then 1
              else npStdCol [[(1 : ℝ)], [-1]] 0))],
          [((-1 : ℝ) - npMeanCol [[(1 : ℝ)], [-1]] 0) /
            (-1 * (if npStdCol [[(1 : ℝ)], [-1]] 0 = 0 then 1
              else npStdCol [[(1 : ℝ)], [-1]] 0))]] = [[-1], [1]]
    rw [hm2, hσ2]
    norm_num
  rw [hy, hz]
  intro h
  have h0 := congrArg (fun l => (l.getD 0 []).getD 0 (0 : ℝ)) h
  norm_num at h0

/-- C10 witness instance. -/
theorem arff_name_unbound_wit :
    arff_to_data "dataset.arff" 1 = Except.error "NameError: name arff" :=
  arff_name_unbound.2 "dataset.arff" 1
